import Mathlib

/-!
# Verification of the CSAO data simulator session generator

Shallow embedding of `data_simulator.py` (module 1 of the CSAO rail
recommendation system).  The embedding follows the source code of
`generate_sessions` and its helpers line by line:

* Python floats are modelled as rationals (`ℚ`); every arithmetic
  operation performed by the code is a product / sum / min / max of
  decimal constants, which `ℚ` represents exactly.
* The NumPy generator is modelled as an abstract oracle of three draw
  streams (`unif` for `rng.random()` and the single uniform hidden in a
  weighted `rng.choice(..., p=...)`, `pick` for index selections such as
  `rng.choice(n_days, ...)` and the without-replacement noise sampling,
  `norm` for `rng.normal`).  A counter state `RS` records how many draws
  of each kind have been consumed; every sampling site advances exactly
  one counter, mirroring the strictly sequential consumption of the
  shared generator in the source.
* `list(set(...))` snapshots are modelled as `List.dedup` of the mapped
  list (a deterministic enumeration of the same set of values), and
  Python's `round(x, k)` as rounding of the exact rational; no claim
  below depends on the concrete values of these fields.
-/

namespace Csao

/-- `MenuItem` dataclass of the source (lines 77-89). -/
structure MenuItem where
  item_id : String
  name : String
  category : String
  cuisine : String
  is_veg : Bool
  price : ℚ
  meal_role : String
  meal_times : List String
  description : String
  popularity_score : ℚ
deriving DecidableEq, Repr

/-- `UserProfile` dataclass of the source (lines 311-321). -/
structure UserProfile where
  user_id : String
  city : String
  segment : String
  veg_preference : ℚ
  price_sensitivity : ℚ
  adventurousness : ℚ
  preferred_cuisines : List String
  num_orders : ℕ
deriving DecidableEq, Repr

/-- One entry of the `MEAL_TEMPLATES` table (lines 249-292): four
role → item-id lists plus the per-role `completion_prob` mapping. -/
structure MealTemplate where
  anchors : List String
  complements : List String
  addons : List String
  finishers : List String
  completion_prob : List (String × ℚ)
deriving DecidableEq, Repr

/-- The concrete `MEAL_TEMPLATES` configuration table (lines 249-292). -/
def MEAL_TEMPLATES : List (String × MealTemplate) :=
  [("biryani_meal",
    { anchors := ["ITEM_001", "ITEM_002", "ITEM_003", "ITEM_011"]
      complements := ["ITEM_033", "ITEM_034", "ITEM_035"]
      addons := ["ITEM_040", "ITEM_041", "ITEM_044"]
      finishers := ["ITEM_050", "ITEM_051", "ITEM_064", "ITEM_063"]
      completion_prob := [("complement", 65/100), ("addon", 25/100), ("finisher", 50/100)] }),
   ("north_indian_curry",
    { anchors := ["ITEM_004", "ITEM_005", "ITEM_006", "ITEM_007"]
      complements := ["ITEM_030", "ITEM_031", "ITEM_032"]
      addons := ["ITEM_040", "ITEM_041", "ITEM_035", "ITEM_072"]
      finishers := ["ITEM_050", "ITEM_052", "ITEM_062", "ITEM_064"]
      completion_prob := [("complement", 80/100), ("addon", 20/100), ("finisher", 45/100)] }),
   ("south_indian_breakfast",
    { anchors := ["ITEM_009", "ITEM_010", "ITEM_012", "ITEM_013"]
      complements := ["ITEM_038", "ITEM_039"]
      addons := ["ITEM_073"]
      finishers := ["ITEM_066", "ITEM_060"]
      completion_prob := [("complement", 70/100), ("addon", 15/100), ("finisher", 55/100)] }),
   ("chinese_meal",
    { anchors := ["ITEM_014", "ITEM_015", "ITEM_016", "ITEM_017"]
      complements := ["ITEM_043", "ITEM_044"]
      addons := ["ITEM_037"]
      finishers := ["ITEM_064", "ITEM_061", "ITEM_053"]
      completion_prob := [("complement", 45/100), ("addon", 30/100), ("finisher", 40/100)] }),
   ("street_food_snack",
    { anchors := ["ITEM_018", "ITEM_019", "ITEM_020", "ITEM_008"]
      complements := []
      addons := ["ITEM_037", "ITEM_035"]
      finishers := ["ITEM_060", "ITEM_064", "ITEM_065"]
      completion_prob := [("complement", 10/100), ("addon", 20/100), ("finisher", 50/100)] }),
   ("continental_meal",
    { anchors := ["ITEM_021", "ITEM_022", "ITEM_023"]
      complements := ["ITEM_037", "ITEM_036"]
      addons := ["ITEM_042", "ITEM_045"]
      finishers := ["ITEM_053", "ITEM_061", "ITEM_064"]
      completion_prob := [("complement", 55/100), ("addon", 30/100), ("finisher", 45/100)] })]

/-- The concrete `MEALTIME_TEMPLATE_WEIGHTS` table (lines 295-304). -/
def MEALTIME_TEMPLATE_WEIGHTS : List (String × List (String × ℚ)) :=
  [("breakfast",
    [("south_indian_breakfast", 5/10), ("street_food_snack", 3/10), ("continental_meal", 2/10)]),
   ("lunch",
    [("biryani_meal", 25/100), ("north_indian_curry", 30/100), ("chinese_meal", 15/100),
     ("south_indian_breakfast", 10/100), ("continental_meal", 10/100), ("street_food_snack", 10/100)]),
   ("snacks",
    [("street_food_snack", 5/10), ("chinese_meal", 2/10), ("continental_meal", 2/10),
     ("south_indian_breakfast", 1/10)]),
   ("dinner",
    [("biryani_meal", 30/100), ("north_indian_curry", 30/100), ("chinese_meal", 20/100),
     ("continental_meal", 15/100), ("street_food_snack", 5/100)]),
   ("late_night",
    [("chinese_meal", 35/100), ("continental_meal", 35/100), ("street_food_snack", 20/100),
     ("biryani_meal", 10/100)])]

/-- `_get_meal_time` (lines 423-434): map an hour of day to a meal-time
bucket.  The chained comparisons `6 <= hour < 10` etc. become explicit
conjunctions. -/
def getMealTime (hour : ℕ) : String :=
  if 6 ≤ hour ∧ hour < 10 then "breakfast"
  else if 10 ≤ hour ∧ hour < 15 then "lunch"
  else if 15 ≤ hour ∧ hour < 18 then "snacks"
  else if 18 ≤ hour ∧ hour < 22 then "dinner"
  else "late_night"

/-- Counter state of the abstract random generator: how many uniform,
index-pick and normal draws have been consumed so far. -/
structure RS where
  u : ℕ
  p : ℕ
  g : ℕ
deriving DecidableEq, Repr

/-- Abstract oracle standing for the NumPy generator: the value returned
by the n-th draw of each kind. -/
structure Oracle where
  unif : ℕ → ℚ
  pick : ℕ → ℕ
  norm : ℕ → ℚ

def RS.incU (s : RS) : RS := ⟨s.u + 1, s.p, s.g⟩

def RS.incP (s : RS) : RS := ⟨s.u, s.p + 1, s.g⟩

def RS.incG (s : RS) : RS := ⟨s.u, s.p, s.g + 1⟩

/-- The `item_lookup` dict built at line 502: `{item.item_id: item}`.
Later duplicates overwrite earlier ones, hence the reversed search. -/
def itemLookup (catalog : List MenuItem) (cid : String) : Option MenuItem :=
  catalog.reverse.find? (fun it => it.item_id == cid)

/-- Placeholder item for total projections at sites where the Python code
indexes `item_lookup` with a key that is guaranteed present. -/
def dummyItem : MenuItem :=
  ⟨"", "", "", "", false, 0, "", [], "", 0⟩

def fetchItem (catalog : List MenuItem) (cid : String) : MenuItem :=
  (itemLookup catalog cid).getD dummyItem

/-- `all_item_ids = list(item_lookup.keys())` (line 503): first-occurrence
order of the ids, duplicates collapsed. -/
def allItemIds (catalog : List MenuItem) : List String :=
  (catalog.map (fun it => it.item_id)).dedup

/-- First-match association lookup, modelling Python dict indexing /
`.get` on the literal config tables (whose keys are distinct). -/
def lookupStr {β : Type} (k : String) : List (String × β) → Option β
  | [] => none
  | (a, b) :: es => if a = k then some b else lookupStr k es

/-- Segment multiplier dict at line 571.  The source dict contains exactly
the three segments produced by `generate_users`; the final branch is never
reached by generated data. -/
def segmentMultiplier (seg : String) : ℚ :=
  if seg = "new" then 7/10
  else if seg = "regular" then 1
  else if seg = "power" then 13/10
  else 1

/-- `template["completion_prob"].get(role, 0.3)` (line 568). -/
def completionProbOf (t : MealTemplate) (role : String) : ℚ :=
  (lookupStr role t.completion_prob).getD (3/10)

/-- `template.get(f"{role}s", template.get(role, []))` (line 564) for the
three roles the loop iterates over. -/
def roleItemsOf (t : MealTemplate) (role : String) : List String :=
  if role = "complement" then t.complements
  else if role = "addon" then t.addons
  else if role = "finisher" then t.finishers
  else []

/-- Per-role acceptance probability (lines 568-576): base completion
probability times segment multiplier, clamped to 0.95, then the weekend
boost, clamped again. -/
def roleAcceptProb (t : MealTemplate) (role : String) (user : UserProfile)
    (weekend : Bool) : ℚ :=
  let p := min (19/20) (completionProbOf t role * segmentMultiplier user.segment)
  if weekend then min (19/20) (p * (23/20)) else p

/-- Per-candidate acceptance probability (lines 594-612): the role's
probability adjusted by the noise, veg, price and meal-time modifiers,
applied in source order (veg/non-veg is an `if`/`elif` pair). -/
def candAccept (p0 : ℚ) (isNoise : Bool) (item : MenuItem) (user : UserProfile)
    (mealTime : String) : ℚ :=
  let p1 := if isNoise then p0 * (8/100) else p0
  let p2 :=
    if item.is_veg ∧ user.veg_preference < 3/10 then p1 * (6/10)
    else if ¬item.is_veg ∧ user.veg_preference > 7/10 then p1 * (5/100)
    else p1
  let p3 := if item.price > 200 ∧ user.price_sensitivity > 7/10 then p2 * (4/10) else p2
  if mealTime ∈ item.meal_times then p3 else p3 * (15/100)

/-- Composite anchor score (lines 546-551):
`veg_match * price_match * popularity_score`. -/
def anchorScore (user : UserProfile) (item : MenuItem) : ℚ :=
  let veg_match : ℚ :=
    if (item.is_veg ∧ user.veg_preference > 1/2) ∨
       (¬item.is_veg ∧ user.veg_preference ≤ 1/2) then 1 else 3/10
  let price_match : ℚ := max (1/10) (1 - user.price_sensitivity * (item.price / 400))
  veg_match * price_match * item.popularity_score

/-- Index selected by a weighted categorical draw: NumPy's
`rng.choice(..., p=w/Σw)` consumes one uniform `u` and returns the least
index whose cumulative weight exceeds `u·Σw`. -/
def cumIndex (target : ℚ) : List ℚ → ℕ
  | [] => 0
  | w :: ws => if target < w then 0 else 1 + cumIndex (target - w) ws

/-- Python's `round(x, k)` on the exact rational value. -/
def roundTo (k : ℕ) (q : ℚ) : ℚ :=
  ((round (q * (10 : ℚ) ^ k) : ℤ) : ℚ) / (10 : ℚ) ^ k

/-- Session timestamp produced by `_sample_timestamp`: the date is kept as
the day offset from the simulation start, together with the derived
weekday (`(start.weekday + offset) % 7`) and the clock time. -/
structure Timestamp where
  day : ℕ
  weekday : ℕ
  hour : ℕ
  minute : ℕ
deriving DecidableEq, Repr

/-- One emitted training record: the event dict of lines 620-651. -/
structure Event where
  session_id : String
  user_id : String
  city : String
  user_segment : String
  user_veg_preference : ℚ
  user_price_sensitivity : ℚ
  timestamp : Timestamp
  meal_time : String
  day_of_week : ℕ
  hour_of_day : ℕ
  is_weekend : ℕ
  cart_items : List String
  cart_item_count : ℕ
  cart_total_price : ℚ
  cart_veg_ratio : ℚ
  last_item_added : String
  last_item_category : String
  last_item_cuisine : String
  cart_categories : List String
  cart_cuisines : List String
  candidate_item_id : String
  candidate_category : String
  candidate_cuisine : String
  candidate_price : ℚ
  candidate_is_veg : ℕ
  candidate_meal_role : String
  candidate_popularity : ℚ
  candidate_accepted : ℕ
  meal_template : String
  is_abandoned : ℕ
deriving DecidableEq, Repr

/-- Per-session context fixed before the role loop: session id, user,
timestamp, meal time, chosen template name and the abandonment flag drawn
at line 561. -/
structure SessCtx where
  session_id : String
  user : UserProfile
  ts : Timestamp
  mealTime : String
  templateName : String
  isAbandoned : Bool
deriving DecidableEq, Repr

/-- Materialize the event dict (lines 617-651) for one candidate
evaluation against the current cart snapshot. -/
def mkEvent (catalog : List MenuItem) (ctx : SessCtx) (cart : List String)
    (candId : String) (cand : MenuItem) (accepted : ℕ) : Event :=
  let vegCount : ℕ := (cart.filter (fun cid => (fetchItem catalog cid).is_veg)).length
  { session_id := ctx.session_id
    user_id := ctx.user.user_id
    city := ctx.user.city
    user_segment := ctx.user.segment
    user_veg_preference := roundTo 3 ctx.user.veg_preference
    user_price_sensitivity := roundTo 3 ctx.user.price_sensitivity
    timestamp := ctx.ts
    meal_time := ctx.mealTime
    day_of_week := ctx.ts.weekday
    hour_of_day := ctx.ts.hour
    is_weekend := if 5 ≤ ctx.ts.weekday then 1 else 0
    cart_items := cart
    cart_item_count := cart.length
    cart_total_price := (cart.map (fun cid => (fetchItem catalog cid).price)).sum
    cart_veg_ratio := if cart = [] then 0 else roundTo 2 ((vegCount : ℚ) / (cart.length : ℚ))
    last_item_added := cart.getLastD ""
    last_item_category := (fetchItem catalog (cart.getLastD "")).category
    last_item_cuisine := (fetchItem catalog (cart.getLastD "")).cuisine
    cart_categories := (cart.map (fun cid => (fetchItem catalog cid).category)).dedup
    cart_cuisines := (cart.map (fun cid => (fetchItem catalog cid).cuisine)).dedup
    candidate_item_id := candId
    candidate_category := cand.category
    candidate_cuisine := cand.cuisine
    candidate_price := cand.price
    candidate_is_veg := if cand.is_veg then 1 else 0
    candidate_meal_role := cand.meal_role
    candidate_popularity := cand.popularity_score
    candidate_accepted := accepted
    meal_template := ctx.templateName
    is_abandoned := if ctx.isAbandoned then 1 else 0 }

/-- Noise-candidate sampling (lines 582-586): `rng.choice(pool, size=k,
replace=False)` — `k` successive index picks, each removing the chosen
element from the remaining pool. -/
def pickNoise (o : Oracle) : ℕ → List String → RS → List String × RS
  | 0, _, s => ([], s)
  | _ + 1, [], s => ([], s)
  | k + 1, x :: xs, s =>
    let i : ℕ := o.pick s.p % (xs.length + 1)
    let chosen := (x :: xs).getD i ""
    let rest := (x :: xs).eraseIdx i
    let r := pickNoise o k rest s.incP
    (chosen :: r.1, r.2)

/-- The inner candidate loop (lines 590-656): for each candidate id, look
it up, compute the modified acceptance probability, draw one uniform,
emit the labeled event against the current cart snapshot, and append the
candidate to the cart when accepted. -/
def evalCandidates (catalog : List MenuItem) (ctx : SessCtx) (p0 : ℚ)
    (noise : List String) (o : Oracle) :
    List String → List String → RS → List Event × List String × RS
  | [], cart, s => ([], cart, s)
  | cid :: rest, cart, s =>
    match itemLookup catalog cid with
    | none => ([], cart, s)
    | some cand =>
      let p := candAccept p0 (decide (cid ∈ noise)) cand ctx.user ctx.mealTime
      let accepted : ℕ := if o.unif s.u < p then 1 else 0
      let ev := mkEvent catalog ctx cart cid cand accepted
      let cart1 := if accepted = 1 then cart ++ [cid] else cart
      let r := evalCandidates catalog ctx p0 noise o rest cart1 s.incU
      (ev :: r.1, r.2)

/-- One iteration of the role loop (lines 563-656): skip when the
template's item list for the role is empty, otherwise fix the role's
acceptance probability, build the in-template and noise candidate pools,
and evaluate every candidate in list order. -/
def processRole (catalog : List MenuItem) (ctx : SessCtx) (t : MealTemplate)
    (role : String) (o : Oracle) (cart : List String) (s : RS) :
    List Event × List String × RS :=
  let roleItems := roleItemsOf t role
  if roleItems = [] then ([], cart, s)
  else
    let accept := roleAcceptProb t role ctx.user (decide (5 ≤ ctx.ts.weekday))
    let valid := roleItems.filter
      (fun cid => decide ((itemLookup catalog cid).isSome = true ∧ cid ∉ cart))
    let allIds := allItemIds catalog
    let pool := allIds.filter (fun iid => decide (iid ∉ cart ∧ iid ∉ valid))
    let k := min 3 (allIds.length - cart.length - valid.length)
    let nr := pickNoise o k pool s
    evalCandidates catalog ctx accept nr.1 o (valid ++ nr.1) cart nr.2

/-- `_sample_timestamp` (lines 437-471): one uniform draw selects the
peak (it only chooses which Gaussian the normal draw is taken from, which
the `norm` stream abstracts), one normal draw gives the fractional hour,
clamped to `[0, 23.99]` and split into hour and minute. -/
def sampleTimestamp (o : Oracle) (s : RS) (dayOffset : ℕ) (startWeekday : ℕ) :
    Timestamp × RS :=
  let s1 := s.incU
  let h : ℚ := o.norm s1.g
  let s2 := s1.incG
  let hour : ℚ := max 0 (min (2399/100) h)
  let hourInt : ℕ := hour.floor.toNat
  let minute : ℕ := ((hour - (hour.floor : ℚ)) * 60).floor.toNat
  (⟨dayOffset, (startWeekday + dayOffset) % 7, hourInt, minute⟩, s2)

/-- `MEAL_TEMPLATES[name]` (line 534). -/
def templateOf (nm : String) : MealTemplate :=
  (lookupStr nm MEAL_TEMPLATES).getD ⟨[], [], [], [], []⟩

/-- Template selection (lines 519-534): look the weight table up by meal
time (falling back to the lunch weights), boost each template's weight by
`1 + 0.3 ·` the overlap between its anchor cuisines and the user's
preferred cuisines, normalize, and draw one template. -/
def chooseTemplate (user : UserProfile) (mealTime : String)
    (catalog : List MenuItem) (o : Oracle) (s : RS) :
    (String × MealTemplate) × RS :=
  let tw := (lookupStr mealTime MEALTIME_TEMPLATE_WEIGHTS).getD
    ((lookupStr "lunch" MEALTIME_TEMPLATE_WEIGHTS).getD [])
  let adjusted := tw.map (fun nw =>
    let t := templateOf nw.1
    let anchorCuisines :=
      ((t.anchors.filterMap (itemLookup catalog)).map (fun it => it.cuisine)).dedup
    let overlap := (anchorCuisines.filter
      (fun c => decide (c ∈ user.preferred_cuisines))).length
    (nw.1, nw.2 * (1 + (3/10) * (overlap : ℚ))))
  let ws := adjusted.map (fun nw => nw.2)
  let i := cumIndex (o.unif s.u * ws.sum) ws
  let nm := ((adjusted.getD i ("", 0)).1)
  ((nm, templateOf nm), s.incU)

/-- `template["anchors"]` filtered to catalog members (line 540). -/
def validAnchorsOf (catalog : List MenuItem) (t : MealTemplate) : List String :=
  t.anchors.filter (fun aid => decide ((itemLookup catalog aid).isSome = true))

def anchorScores (user : UserProfile) (catalog : List MenuItem)
    (va : List String) : List ℚ :=
  va.map (fun aid => anchorScore user (fetchItem catalog aid))

/-- Anchor selection (lines 539-557): skip the session when no template
anchor is in the catalog, otherwise score the valid anchors, draw one
from the normalized score vector and seed the cart with it. -/
def anchorStage (user : UserProfile) (catalog : List MenuItem)
    (t : MealTemplate) (o : Oracle) (s : RS) :
    Option (String × List String × RS) :=
  let va := validAnchorsOf catalog t
  if va = [] then none
  else
    let scores := anchorScores user catalog va
    let i := cumIndex (o.unif s.u * scores.sum) scores
    let aid := va.getD i ""
    some (aid, [aid], s.incU)

def setAbandoned (e : Event) : Event := { e with is_abandoned := 1 }

/-- The global last-event override (lines 658-661): after a non-skipped
session, one uniform draw `d` is consumed; when `d < 0.05` and at least
one event has ever been emitted, the most recently emitted event has its
`is_abandoned` field forced to 1. -/
def maybeOverride (d : ℚ) (es : List Event) : List Event :=
  if d < 1/20 then
    match es.getLast? with
    | some e => es.dropLast ++ [setAbandoned e]
    | none => es
  else es

/-- The body of one non-skipped session (lines 563-661): the role loop
`for role in ["complement", "addon", "finisher"]` unrolled in its fixed
order, followed by the global last-event override draw. -/
def sessionCore (catalog : List MenuItem) (ctx : SessCtx) (tmpl : MealTemplate)
    (o : Oracle) (cart0 : List String) (s4 : RS) (events : List Event) :
    List Event × RS :=
  let r1 := processRole catalog ctx tmpl "complement" o cart0 s4
  let r2 := processRole catalog ctx tmpl "addon" o r1.2.1 r1.2.2
  let r3 := processRole catalog ctx tmpl "finisher" o r2.2.1 r2.2.2
  (maybeOverride (o.unif r3.2.2.u) (events ++ r1.1 ++ r2.1 ++ r3.1), r3.2.2.incU)

/-- One order of one user (lines 512-661): sample the timestamp, derive
the meal time, choose the template, run the anchor stage (a session whose
template has no valid anchors is skipped), draw the per-session
abandonment flag, run the three role loops in fixed order, and apply the
global last-event override. -/
def processOrder (catalog : List MenuItem) (user : UserProfile)
    (startW dayOff : ℕ) (sid : String) (o : Oracle) (s : RS)
    (events : List Event) : List Event × RS :=
  let tsr := sampleTimestamp o s dayOff startW
  let mt := getMealTime tsr.1.hour
  let ctr := chooseTemplate user mt catalog o tsr.2
  match anchorStage user catalog ctr.1.2 o ctr.2 with
  | none => (events, ctr.2)
  | some acs =>
    let ctx : SessCtx :=
      ⟨sid, user, tsr.1, mt, ctr.1.1, decide (o.unif acs.2.2.u < 2/25)⟩
    sessionCore catalog ctx ctr.1.2 o acs.2.1 acs.2.2.incU events

/-- Ascending insertion used to model `sorted(...)` at line 510. -/
def insertSorted (x : ℕ) : List ℕ → List ℕ
  | [] => [x]
  | y :: ys => if x ≤ y then x :: y :: ys else y :: insertSorted x ys

def sortNat (l : List ℕ) : List ℕ := l.foldr insertSorted []

/-- `rng.choice(n_days, size=num_orders, replace=True)` (line 510):
`n` successive index picks into the day range. -/
def drawDays (o : Oracle) (nDays : ℕ) : ℕ → RS → List ℕ × RS
  | 0, s => ([], s)
  | k + 1, s =>
    let d := o.pick s.p % nDays
    let r := drawDays o nDays k s.incP
    (d :: r.1, r.2)

/-- `f"S{counter:07d}"` (line 514). -/
def sessionIdOf (n : ℕ) : String :=
  let d := toString n
  String.mk (List.replicate (7 - d.length) '0') ++ d |> (fun z => "S" ++ z)

/-- All orders of one user (lines 508-661): draw and sort the order
dates, then process the orders sequentially; the session counter
increments for every order, including skipped ones. -/
def processUser (catalog : List MenuItem) (nDays startW : ℕ) (o : Oracle)
    (acc : RS × ℕ × List Event) (user : UserProfile) : RS × ℕ × List Event :=
  let dr := drawDays o nDays user.num_orders acc.1
  let dates := sortNat dr.1
  dates.foldl (fun st d =>
    let counter := st.2.1 + 1
    let pr := processOrder catalog user startW d (sessionIdOf counter) o st.1 st.2.2
    (pr.2, counter, pr.1)) (dr.2, acc.2.1, acc.2.2)

/-- `generate_sessions` (lines 474-664): fold over the user pool,
returning the ordered sequence of emitted events. -/
def generateSessions (users : List UserProfile) (catalog : List MenuItem)
    (nDays startW : ℕ) (o : Oracle) : List Event :=
  (users.foldl (processUser catalog nDays startW o) (⟨0, 0, 0⟩, 0, [])).2.2

/-! ## Basic algebraic lemmas about the acceptance probabilities -/

/-- The sequentially applied modifiers of lines 594-612 multiply out to
the product of the five conditional factors, in source order. -/
theorem candAccept_eq_prod (p0 : ℚ) (b : Bool) (item : MenuItem)
    (user : UserProfile) (mt : String) :
    candAccept p0 b item user mt =
      p0 * (if b then 8/100 else 1)
         * (if item.is_veg ∧ user.veg_preference < 3/10 then 6/10 else 1)
         * (if ¬item.is_veg ∧ user.veg_preference > 7/10 then 5/100 else 1)
         * (if item.price > 200 ∧ user.price_sensitivity > 7/10 then 4/10 else 1)
         * (if mt ∉ item.meal_times then 15/100 else 1) := by
  unfold candAccept
  split_ifs <;> (try tauto) <;> ring

/-- The double clamp of lines 572-576 equals a single clamp of the fully
multiplied base probability. -/
theorem roleAcceptProb_eq (t : MealTemplate) (role : String)
    (user : UserProfile) (wk : Bool) :
    roleAcceptProb t role user wk =
      min (19/20) (completionProbOf t role * segmentMultiplier user.segment *
        (if wk then 23/20 else 1)) := by
  unfold roleAcceptProb
  cases wk with
  | false => simp
  | true =>
    simp only [if_true]
    rcases le_total (completionProbOf t role * segmentMultiplier user.segment) (19/20)
      with h | h
    · rw [min_eq_right h]
    · rw [min_eq_left h, min_eq_left (by norm_num : (19:ℚ)/20 ≤ 19/20 * (23/20)),
        min_eq_left (by nlinarith : (19:ℚ)/20 ≤
          completionProbOf t role * segmentMultiplier user.segment * (23/20))]

theorem segmentMultiplier_nonneg (seg : String) : 0 ≤ segmentMultiplier seg := by
  unfold segmentMultiplier
  split_ifs <;> norm_num

theorem roleAcceptProb_nonneg (t : MealTemplate) (role : String)
    (user : UserProfile) (wk : Bool) (hcp : 0 ≤ completionProbOf t role) :
    0 ≤ roleAcceptProb t role user wk := by
  have hb : 0 ≤ completionProbOf t role * segmentMultiplier user.segment :=
    mul_nonneg hcp (segmentMultiplier_nonneg user.segment)
  unfold roleAcceptProb
  cases wk with
  | false => exact le_min (by norm_num) hb
  | true =>
    simp only [if_true]
    exact le_min (by norm_num) (by positivity)

theorem roleAcceptProb_le (t : MealTemplate) (role : String)
    (user : UserProfile) (wk : Bool) : roleAcceptProb t role user wk ≤ 19/20 := by
  unfold roleAcceptProb
  cases wk with
  | false => exact min_le_left _ _
  | true => simp only [if_true]; exact min_le_left _ _

theorem candAccept_nonneg (p0 : ℚ) (b : Bool) (item : MenuItem)
    (user : UserProfile) (mt : String) (hp : 0 ≤ p0) :
    0 ≤ candAccept p0 b item user mt := by
  unfold candAccept
  split_ifs <;> nlinarith

theorem candAccept_le (p0 : ℚ) (b : Bool) (item : MenuItem)
    (user : UserProfile) (mt : String) (hp : 0 ≤ p0) :
    candAccept p0 b item user mt ≤ p0 := by
  unfold candAccept
  split_ifs <;> nlinarith

/-! ## List-level helper lemmas -/

theorem lookupStr_mem {β : Type} {l : List (String × β)} {k : String} {v : β}
    (h : lookupStr k l = some v) : (k, v) ∈ l := by
  induction l with
  | nil => simp [lookupStr] at h
  | cons a es ih =>
    obtain ⟨a1, b1⟩ := a
    by_cases hk : a1 = k
    · subst hk
      simp [lookupStr] at h
      simp [h]
    · rw [lookupStr, if_neg hk] at h
      exact List.mem_cons_of_mem _ (ih h)

theorem getD_mem {α : Type} : ∀ (l : List α) (i : ℕ) (d : α), i < l.length →
    l.getD i d ∈ l := by
  intro l
  induction l with
  | nil => intro i d h; simp at h
  | cons x xs ih =>
    intro i d h
    cases i with
    | zero => simp
    | succ j =>
      simp only [List.getD_cons_succ]
      exact List.mem_cons_of_mem _ (ih j d (by simpa using h))

theorem eraseIdx_sub {α : Type} : ∀ (l : List α) (i : ℕ), l.eraseIdx i ⊆ l := by
  intro l
  induction l with
  | nil => intro i; simp [List.eraseIdx]
  | cons x xs ih =>
    intro i
    cases i with
    | zero => simp [List.eraseIdx]
    | succ j =>
      simp only [List.eraseIdx]
      exact List.cons_subset_cons x (ih j)

theorem nodup_eraseIdx {α : Type} : ∀ (l : List α) (i : ℕ), l.Nodup →
    (l.eraseIdx i).Nodup := by
  intro l
  induction l with
  | nil => intro i _; simp [List.eraseIdx]
  | cons x xs ih =>
    intro i h
    rw [List.nodup_cons] at h
    cases i with
    | zero => simpa [List.eraseIdx] using h.2
    | succ j =>
      simp only [List.eraseIdx]
      rw [List.nodup_cons]
      exact ⟨fun hm => h.1 (eraseIdx_sub xs j hm), ih j h.2⟩

theorem getD_not_mem_eraseIdx {α : Type} : ∀ (l : List α) (i : ℕ) (d : α),
    l.Nodup → i < l.length → l.getD i d ∉ l.eraseIdx i := by
  intro l
  induction l with
  | nil => intro i d _ h; simp at h
  | cons x xs ih =>
    intro i d hnd hi
    rw [List.nodup_cons] at hnd
    cases i with
    | zero => simpa [List.eraseIdx] using hnd.1
    | succ j =>
      simp only [List.getD_cons_succ, List.eraseIdx, List.mem_cons]
      rintro (heq | hm)
      · exact hnd.1 (heq ▸ getD_mem xs j d (by simpa using hi))
      · exact ih j d hnd.2 (by simpa using hi) hm

theorem pickNoise_sub (o : Oracle) : ∀ (k : ℕ) (pool : List String) (s : RS),
    (pickNoise o k pool s).1 ⊆ pool := by
  intro k
  induction k with
  | zero => intro pool s; simp [pickNoise]
  | succ n ih =>
    intro pool s
    cases pool with
    | nil => simp [pickNoise]
    | cons x xs =>
      simp only [pickNoise]
      intro a ha
      rcases List.mem_cons.mp ha with rfl | hm
      · exact getD_mem _ _ _ (Nat.mod_lt _ (Nat.succ_pos _))
      · exact eraseIdx_sub (x :: xs) _ (ih _ _ hm)

theorem pickNoise_nodup (o : Oracle) : ∀ (k : ℕ) (pool : List String) (s : RS),
    pool.Nodup → (pickNoise o k pool s).1.Nodup := by
  intro k
  induction k with
  | zero => intro pool s _; simp [pickNoise]
  | succ n ih =>
    intro pool s hnd
    cases pool with
    | nil => simp [pickNoise]
    | cons x xs =>
      simp only [pickNoise, List.nodup_cons]
      constructor
      · intro hm
        exact getD_not_mem_eraseIdx (x :: xs) _ "" hnd
          (Nat.mod_lt _ (Nat.succ_pos _)) (pickNoise_sub o n _ _ hm)
      · exact ih _ _ (nodup_eraseIdx (x :: xs) _ hnd)

theorem pickNoise_u (o : Oracle) : ∀ (k : ℕ) (pool : List String) (s : RS),
    (pickNoise o k pool s).2.u = s.u := by
  intro k
  induction k with
  | zero => intro pool s; simp [pickNoise]
  | succ n ih =>
    intro pool s
    cases pool with
    | nil => simp [pickNoise]
    | cons x xs => simpa [pickNoise, RS.incP] using ih _ _

theorem isSome_of_mem_allIds {catalog : List MenuItem} {cid : String}
    (h : cid ∈ allItemIds catalog) : (itemLookup catalog cid).isSome = true := by
  unfold allItemIds at h
  rw [List.mem_dedup, List.mem_map] at h
  obtain ⟨it, hit, rfl⟩ := h
  unfold itemLookup
  rw [List.find?_isSome]
  exact ⟨it, List.mem_reverse.mpr hit, by simp⟩

theorem sum_map_div (l : List ℚ) (b : ℚ) :
    (l.map (fun x => x / b)).sum = l.sum / b := by
  induction l with
  | nil => simp
  | cons x xs ih => simp [ih, add_div]

theorem cumIndex_lt : ∀ (ws : List ℚ) (target : ℚ), 0 ≤ target →
    target < ws.sum → (∀ w ∈ ws, 0 ≤ w) → cumIndex target ws < ws.length := by
  intro ws
  induction ws with
  | nil => intro t h0 hlt _; simp at hlt; linarith
  | cons w rest ih =>
    intro t h0 hlt hnn
    rw [cumIndex]
    split_ifs with hw
    · simp
    · push_neg at hw
      have h1 : 0 ≤ t - w := by linarith
      have h2 : t - w < rest.sum := by
        rw [List.sum_cons] at hlt; linarith
      have := ih (t - w) h1 h2 (fun x hx => hnn x (List.mem_cons_of_mem _ hx))
      simpa [Nat.add_comm] using Nat.succ_lt_succ this

theorem foldl_inv {α β : Type} {P : β → Prop} {f : β → α → β}
    (hf : ∀ b a, P b → P (f b a)) : ∀ (l : List α) (b : β), P b → P (l.foldl f b) := by
  intro l
  induction l with
  | nil => intro b h; simpa using h
  | cons x xs ih => intro b h; exact ih (f b x) (hf b x h)

/-! ## Characterization of the candidate loop -/

theorem evalCandidates_length (catalog : List MenuItem) (ctx : SessCtx) (p0 : ℚ)
    (noise : List String) (o : Oracle) :
    ∀ (cands cart : List String) (s : RS),
      (∀ c ∈ cands, (itemLookup catalog c).isSome = true) →
      (evalCandidates catalog ctx p0 noise o cands cart s).1.length = cands.length := by
  intro cands
  induction cands with
  | nil => intro cart s _; simp [evalCandidates]
  | cons c cs ih =>
    intro cart s hlk
    obtain ⟨cand, hcand⟩ := Option.isSome_iff_exists.mp (hlk c (List.mem_cons_self c cs))
    simp only [evalCandidates, hcand, List.length_cons]
    rw [ih _ _ (fun x hx => hlk x (List.mem_cons_of_mem _ hx))]

/-- Each candidate of the inner loop consumes exactly one uniform draw;
the i-th emitted event's label compares the i-th uniform after the loop's
start against the candidate-modified acceptance probability built from
the single role-level probability `p0`. -/
theorem evalCandidates_get (catalog : List MenuItem) (ctx : SessCtx) (p0 : ℚ)
    (noise : List String) (o : Oracle) :
    ∀ (cands cart : List String) (s : RS) (i : ℕ),
      (∀ c ∈ cands, (itemLookup catalog c).isSome = true) →
      i < cands.length →
      ∃ ev item,
        itemLookup catalog (cands.getD i "") = some item ∧
        (evalCandidates catalog ctx p0 noise o cands cart s).1.get? i = some ev ∧
        ev.candidate_item_id = cands.getD i "" ∧
        ev.candidate_accepted =
          (if o.unif (s.u + i) <
              candAccept p0 (decide (cands.getD i "" ∈ noise)) item ctx.user ctx.mealTime
           then 1 else 0) := by
  intro cands
  induction cands with
  | nil => intro cart s i _ hi; simp at hi
  | cons c cs ih =>
    intro cart s i hlk hi
    obtain ⟨cand, hcand⟩ := Option.isSome_iff_exists.mp (hlk c (List.mem_cons_self c cs))
    cases i with
    | zero =>
      refine ⟨mkEvent catalog ctx cart c cand
          (if o.unif s.u < candAccept p0 (decide (c ∈ noise)) cand ctx.user ctx.mealTime
           then 1 else 0),
        cand, by simpa using hcand, ?_, by simp [mkEvent], by simp [mkEvent]⟩
      simp [evalCandidates, hcand]
    | succ j =>
      obtain ⟨ev, item, h1, h2, h3, h4⟩ :=
        ih (if o.unif s.u < candAccept p0 (decide (c ∈ noise)) cand ctx.user ctx.mealTime
            then cart ++ [c] else cart) s.incU j
          (fun x hx => hlk x (List.mem_cons_of_mem _ hx)) (by simpa using hi)
      refine ⟨ev, item, by simpa using h1, ?_, by simpa using h3, ?_⟩
      · simpa [evalCandidates, hcand] using h2
      · rw [List.getD_cons_succ, h4]
        have hidx : s.incU.u + j = s.u + (j + 1) := by simp [RS.incU]; omega
        rw [hidx]

/-- Cart-snapshot invariant of the inner loop: when the pending
candidates are duplicate-free and disjoint from the (duplicate-free)
cart, every emitted event's candidate is outside its cart snapshot, every
snapshot is duplicate-free, and the final cart is duplicate-free. -/
theorem evalCandidates_ok (catalog : List MenuItem) (ctx : SessCtx) (p0 : ℚ)
    (noise : List String) (o : Oracle) :
    ∀ (cands cart : List String) (s : RS),
      cart.Nodup → cands.Nodup → (∀ c ∈ cands, c ∉ cart) →
      (∀ e ∈ (evalCandidates catalog ctx p0 noise o cands cart s).1,
          e.candidate_item_id ∉ e.cart_items ∧ e.cart_items.Nodup) ∧
      (evalCandidates catalog ctx p0 noise o cands cart s).2.1.Nodup := by
  intro cands
  induction cands with
  | nil => intro cart s hc _ _; exact ⟨by simp [evalCandidates], by simpa [evalCandidates] using hc⟩
  | cons c cs ih =>
    intro cart s hc hnd hdisj
    rw [List.nodup_cons] at hnd
    cases hcand : itemLookup catalog c with
    | none =>
      exact ⟨by simp [evalCandidates, hcand], by simpa [evalCandidates, hcand] using hc⟩
    | some cand =>
      have hcmem : c ∉ cart := hdisj c (List.mem_cons_self c cs)
      have hc1 : (cart ++ [c]).Nodup :=
        List.Nodup.append hc (List.nodup_singleton c)
          (fun a ha hb => hcmem ((List.mem_singleton.mp hb) ▸ ha))
      have hdisj1 : ∀ x ∈ cs, x ∉ cart ++ [c] := by
        intro x hx
        have hxc : x ≠ c := fun h => hnd.1 (h ▸ hx)
        have hxcart : x ∉ cart := hdisj x (List.mem_cons_of_mem _ hx)
        simp [List.mem_append, hxcart, hxc]
      have hdisj0 : ∀ x ∈ cs, x ∉ cart :=
        fun x hx => hdisj x (List.mem_cons_of_mem _ hx)
      by_cases hdec :
          o.unif s.u < candAccept p0 (decide (c ∈ noise)) cand ctx.user ctx.mealTime
      · obtain ⟨hall, hfin⟩ := ih (cart ++ [c]) s.incU hc1 hnd.2 hdisj1
        constructor
        · intro e he
          simp only [evalCandidates, hcand, if_pos hdec] at he
          simp only [List.mem_cons] at he
          rcases he with rfl | he
          · exact ⟨by simpa [mkEvent] using hcmem, by simpa [mkEvent] using hc⟩
          · exact hall e (by simpa using he)
        · simpa [evalCandidates, hcand, hdec] using hfin
      · obtain ⟨hall, hfin⟩ := ih cart s.incU hc hnd.2 hdisj0
        constructor
        · intro e he
          simp only [evalCandidates, hcand, if_neg hdec] at he
          simp only [List.mem_cons] at he
          rcases he with rfl | he
          · exact ⟨by simpa [mkEvent] using hcmem, by simpa [mkEvent] using hc⟩
          · exact hall e (by simpa using he)
        · simpa [evalCandidates, hcand, hdec] using hfin

/-! ## Role-loop and session-level invariants -/

/-- Every template reachable through `templateOf` has duplicate-free role
lists, by inspection of the literal `MEAL_TEMPLATES` table. -/
theorem template_roleItems_nodup (nm role : String) :
    (roleItemsOf (templateOf nm) role).Nodup := by
  unfold templateOf
  cases hl : lookupStr nm MEAL_TEMPLATES with
  | none => unfold roleItemsOf; split_ifs <;> simp
  | some t =>
    have hmem := lookupStr_mem hl
    simp only [MEAL_TEMPLATES, List.mem_cons, List.not_mem_nil, or_false,
      Prod.mk.injEq] at hmem
    rcases hmem with ⟨-, rfl⟩ | ⟨-, rfl⟩ | ⟨-, rfl⟩ | ⟨-, rfl⟩ | ⟨-, rfl⟩ | ⟨-, rfl⟩ <;>
      (unfold roleItemsOf; split_ifs <;> decide)

/-- The per-role pools built at lines 579-586 are duplicate-free, disjoint
from each other and from the cart, and consist of catalog keys. -/
theorem processRole_ok (catalog : List MenuItem) (ctx : SessCtx)
    (t : MealTemplate) (role : String) (o : Oracle) (cart : List String) (s : RS)
    (hrole : (roleItemsOf t role).Nodup) (hc : cart.Nodup) :
    (∀ e ∈ (processRole catalog ctx t role o cart s).1,
        e.candidate_item_id ∉ e.cart_items ∧ e.cart_items.Nodup) ∧
    (processRole catalog ctx t role o cart s).2.1.Nodup := by
  unfold processRole
  dsimp only
  split_ifs with hempty
  · exact ⟨by simp, hc⟩
  · set valid := (roleItemsOf t role).filter
      (fun cid => decide ((itemLookup catalog cid).isSome = true ∧ cid ∉ cart)) with hvalid
    set pool := (allItemIds catalog).filter
      (fun iid => decide (iid ∉ cart ∧ iid ∉ valid)) with hpool
    set k := min 3 ((allItemIds catalog).length - cart.length - valid.length) with hk
    set noise := (pickNoise o k pool s).1 with hnoise
    have hvnd : valid.Nodup := List.Nodup.filter _ hrole
    have hpoolnd : pool.Nodup := List.Nodup.filter _ (List.nodup_dedup _)
    have hnnd : noise.Nodup := pickNoise_nodup o k pool s hpoolnd
    have hnsub : noise ⊆ pool := pickNoise_sub o k pool s
    have hpoolprop : ∀ x ∈ pool, x ∉ cart ∧ x ∉ valid := by
      intro x hx
      rw [hpool, List.mem_filter] at hx
      simpa using hx.2
    have hcands_nd : (valid ++ noise).Nodup := by
      refine List.Nodup.append hvnd hnnd ?_
      intro a ha hb
      exact (hpoolprop a (hnsub hb)).2 ha
    have hcands_disj : ∀ x ∈ valid ++ noise, x ∉ cart := by
      intro x hx
      rcases List.mem_append.mp hx with hv | hn
      · rw [hvalid, List.mem_filter] at hv
        simpa using (of_decide_eq_true hv.2).2
      · exact (hpoolprop x (hnsub hn)).1
    exact evalCandidates_ok catalog ctx _ noise o (valid ++ noise) cart
      (pickNoise o k pool s).2 hc hcands_nd hcands_disj

/-- `anchorStage` only succeeds with a singleton cart holding the chosen
anchor. -/
theorem anchorStage_eq {user : UserProfile} {catalog : List MenuItem}
    {t : MealTemplate} {o : Oracle} {s : RS} {acs : String × List String × RS}
    (h : anchorStage user catalog t o s = some acs) :
    acs.2.1 = [acs.1] ∧ acs.2.2 = s.incU := by
  unfold anchorStage at h
  dsimp only at h
  split_ifs at h with hva
  simp only [Option.some.injEq] at h
  rw [← h]
  exact ⟨rfl, rfl⟩

theorem mem_of_getLast? {l : List Event} {e : Event} (h : l.getLast? = some e) :
    e ∈ l := by
  have hx : e ∈ l.getLast? := by simp [h, Option.mem_def]
  obtain ⟨hne, rfl⟩ := List.mem_getLast?_eq_getLast hx
  exact List.getLast_mem hne

/-- The last-event override only rewrites the `is_abandoned` field of an
existing event, so any property of the candidate/cart fields survives. -/
theorem maybeOverride_pres (P : Event → Prop)
    (hP : ∀ e, P e → P (setAbandoned e)) (d : ℚ) (es : List Event)
    (hall : ∀ e ∈ es, P e) : ∀ e ∈ maybeOverride d es, P e := by
  unfold maybeOverride
  split_ifs
  · cases hl : es.getLast? with
    | none => exact hall
    | some e0 =>
      intro e he
      rcases List.mem_append.mp he with hd | hd
      · exact hall e ((List.dropLast_sublist es).subset hd)
      · rw [List.mem_singleton.mp hd]
        exact hP e0 (hall e0 (mem_of_getLast? hl))
  · exact hall

/-- Session-level invariant: processing one order preserves "every emitted
event's candidate is outside its duplicate-free cart snapshot". -/
theorem processOrder_ok (catalog : List MenuItem) (user : UserProfile)
    (startW dayOff : ℕ) (sid : String) (o : Oracle) (s : RS) (events : List Event)
    (hall : ∀ e ∈ events,
        e.candidate_item_id ∉ e.cart_items ∧ e.cart_items.Nodup) :
    ∀ e ∈ (processOrder catalog user startW dayOff sid o s events).1,
      e.candidate_item_id ∉ e.cart_items ∧ e.cart_items.Nodup := by
  unfold processOrder sessionCore
  dsimp only
  set tsr := sampleTimestamp o s dayOff startW with htsr
  set mt := getMealTime tsr.1.hour with hmt
  set ctr := chooseTemplate user mt catalog o tsr.2 with hctr
  cases hanch : anchorStage user catalog ctr.1.2 o ctr.2 with
  | none => exact hall
  | some acs =>
    dsimp only
    obtain ⟨hcart, -⟩ := anchorStage_eq hanch
    have hnodup : ∀ role, (roleItemsOf ctr.1.2 role).Nodup := by
      intro role
      have hnm : ctr.1.2 = templateOf ctr.1.1 := by
        rw [hctr]; rfl
      rw [hnm]
      exact template_roleItems_nodup _ _
    set ctx : SessCtx :=
      ⟨sid, user, tsr.1, mt, ctr.1.1, decide (o.unif acs.2.2.u < 2/25)⟩ with hctx
    have h0 : acs.2.1.Nodup := by rw [hcart]; exact List.nodup_singleton _
    have h1 := processRole_ok catalog ctx ctr.1.2 "complement" o acs.2.1 acs.2.2.incU
      (hnodup _) h0
    have h2 := processRole_ok catalog ctx ctr.1.2 "addon" o
      (processRole catalog ctx ctr.1.2 "complement" o acs.2.1 acs.2.2.incU).2.1
      (processRole catalog ctx ctr.1.2 "complement" o acs.2.1 acs.2.2.incU).2.2
      (hnodup _) h1.2
    have h3 := processRole_ok catalog ctx ctr.1.2 "finisher" o
      (processRole catalog ctx ctr.1.2 "addon" o
        (processRole catalog ctx ctr.1.2 "complement" o acs.2.1 acs.2.2.incU).2.1
        (processRole catalog ctx ctr.1.2 "complement" o acs.2.1 acs.2.2.incU).2.2).2.1
      (processRole catalog ctx ctr.1.2 "addon" o
        (processRole catalog ctx ctr.1.2 "complement" o acs.2.1 acs.2.2.incU).2.1
        (processRole catalog ctx ctr.1.2 "complement" o acs.2.1 acs.2.2.incU).2.2).2.2
      (hnodup _) h2.2
    refine maybeOverride_pres _ ?_ _ _ ?_
    · intro e he
      exact ⟨by simpa [setAbandoned] using he.1, by simpa [setAbandoned] using he.2⟩
    · intro e he
      rcases List.mem_append.mp he with he' | he3
      · rcases List.mem_append.mp he' with he'' | he2
        · rcases List.mem_append.mp he'' with he0 | he1
          · exact hall e he0
          · exact h1.1 e he1
        · exact h2.1 e he2
      · exact h3.1 e he3

theorem generateSessions_ok (users : List UserProfile) (catalog : List MenuItem)
    (nDays startW : ℕ) (o : Oracle) :
    ∀ e ∈ generateSessions users catalog nDays startW o,
      e.candidate_item_id ∉ e.cart_items ∧ e.cart_items.Nodup := by
  have huser : ∀ (st : RS × ℕ × List Event) (user : UserProfile),
      (∀ e ∈ st.2.2, e.candidate_item_id ∉ e.cart_items ∧ e.cart_items.Nodup) →
      (∀ e ∈ (processUser catalog nDays startW o st user).2.2,
        e.candidate_item_id ∉ e.cart_items ∧ e.cart_items.Nodup) := by
    intro st user hst
    unfold processUser
    dsimp only
    refine foldl_inv (P := fun st2 : RS × ℕ × List Event =>
      ∀ e ∈ st2.2.2, e.candidate_item_id ∉ e.cart_items ∧ e.cart_items.Nodup)
      ?_ _ _ hst
    intro b a hb
    exact processOrder_ok catalog user startW a (sessionIdOf (b.2.1 + 1)) o b.1 b.2.2 hb
  exact foldl_inv (P := fun st : RS × ℕ × List Event =>
      ∀ e ∈ st.2.2, e.candidate_item_id ∉ e.cart_items ∧ e.cart_items.Nodup)
    huser users (⟨0, 0, 0⟩, 0, []) (by simp)

/-! ## The claims -/

/-- C1: For every candidate evaluated in a role loop, its acceptance
probability equals the role's precomputed `accept_prob` multiplied, in
this order, by 0.08 if the candidate was drawn from the noise pool, 0.6
if the candidate is veg and the user's veg_preference < 0.3, 0.05 if the
candidate is non-veg and the user's veg_preference > 0.7, 0.4 if the
candidate's price > 200 and the user's price_sensitivity > 0.7, and 0.15
if the session's meal-time bucket is not among the candidate's applicable
meal-times; the emitted label is 1 if a single uniform draw is below this
probability and 0 otherwise. -/
theorem c1_candidate_acceptance_probability
    (catalog : List MenuItem) (ctx : SessCtx) (p0 : ℚ) (noise : List String)
    (o : Oracle) (cands cart : List String) (s : RS) (i : ℕ) (item : MenuItem)
    (hlk : ∀ c ∈ cands, (itemLookup catalog c).isSome = true)
    (hi : i < cands.length)
    (hitem : itemLookup catalog (cands.getD i "") = some item) :
    ∃ ev, (evalCandidates catalog ctx p0 noise o cands cart s).1.get? i = some ev ∧
      ev.candidate_item_id = cands.getD i "" ∧
      ev.candidate_accepted =
        (if o.unif (s.u + i) <
            p0 * (if cands.getD i "" ∈ noise then 8/100 else 1)
               * (if item.is_veg ∧ ctx.user.veg_preference < 3/10 then 6/10 else 1)
               * (if ¬item.is_veg ∧ ctx.user.veg_preference > 7/10 then 5/100 else 1)
               * (if item.price > 200 ∧ ctx.user.price_sensitivity > 7/10 then 4/10 else 1)
               * (if ctx.mealTime ∉ item.meal_times then 15/100 else 1)
         then 1 else 0) := by
  obtain ⟨ev, item2, h1, h2, h3, h4⟩ :=
    evalCandidates_get catalog ctx p0 noise o cands cart s i hlk hi
  have hi2 : item2 = item := Option.some.inj (h1.symm.trans hitem)
  subst hi2
  refine ⟨ev, h2, h3, ?_⟩
  rw [h4, candAccept_eq_prod]
  simp only [decide_eq_true_eq]

/-- C2: For every role entered in a session, the role's base acceptance
probability is computed exactly once before the role's candidate loop as
the template's completion_prob times the segment multiplier
(new = 0.7, regular = 1.0, power = 1.3), then times 1.15 on a weekend,
clamped to at most 0.95; every candidate in the role starts from this
same value (the i-th label compares the i-th uniform draw against the
candidate-modified version of this single probability). -/
theorem c2_role_base_probability (catalog : List MenuItem) (ctx : SessCtx)
    (t : MealTemplate) (role : String) (o : Oracle) (cart : List String) (s : RS)
    (hne : roleItemsOf t role ≠ []) :
    (∀ i ev, (processRole catalog ctx t role o cart s).1.get? i = some ev →
      ∃ (b : Bool) (item : MenuItem),
        ev.candidate_accepted =
          (if o.unif (s.u + i) <
              candAccept (min (19/20) (completionProbOf t role *
                segmentMultiplier ctx.user.segment *
                (if 5 ≤ ctx.ts.weekday then 23/20 else 1))) b item ctx.user ctx.mealTime
           then 1 else 0)) ∧
    segmentMultiplier "new" = 7/10 ∧ segmentMultiplier "regular" = 1 ∧
    segmentMultiplier "power" = 13/10 := by
  constructor
  · intro i ev hev
    unfold processRole at hev
    dsimp only at hev
    rw [if_neg hne] at hev
    set valid := (roleItemsOf t role).filter
      (fun cid => decide ((itemLookup catalog cid).isSome = true ∧ cid ∉ cart)) with hvalid
    set pool := (allItemIds catalog).filter
      (fun iid => decide (iid ∉ cart ∧ iid ∉ valid)) with hpool
    set k := min 3 ((allItemIds catalog).length - cart.length - valid.length) with hk
    set noise := (pickNoise o k pool s).1 with hnoise
    have hlk : ∀ c ∈ valid ++ noise, (itemLookup catalog c).isSome = true := by
      intro c hc
      rcases List.mem_append.mp hc with hv | hn
      · rw [hvalid, List.mem_filter] at hv
        exact (of_decide_eq_true hv.2).1
      · have hp := pickNoise_sub o k pool s hn
        rw [hpool, List.mem_filter] at hp
        exact isSome_of_mem_allIds hp.1
    obtain ⟨hlen, -⟩ := List.get?_eq_some.mp hev
    rw [evalCandidates_length catalog ctx _ noise o _ cart _ hlk] at hlen
    obtain ⟨ev2, item, h1, h2, h3, h4⟩ :=
      evalCandidates_get catalog ctx _ noise o (valid ++ noise) cart
        (pickNoise o k pool s).2 i hlk hlen
    have hevev : ev2 = ev := Option.some.inj (h2.symm.trans hev)
    subst hevev
    refine ⟨decide ((valid ++ noise).getD i "" ∈ noise), item, ?_⟩
    rw [h4, pickNoise_u o k pool s, roleAcceptProb_eq]
    simp only [decide_eq_true_eq]
  · exact ⟨by simp [segmentMultiplier], by simp [segmentMultiplier],
      by simp [segmentMultiplier]⟩

/-- C3: For every emitted event, `candidate_item_id` is not an element of
the event's snapshotted `cart_items`, and the cart never contains
duplicate item ids at any point: the per-role candidate pools exclude
items already in the cart and contain no duplicates, so the append-only
cart stays duplicate-free even though accepted candidates are appended
mid-loop. -/
theorem c3_candidate_not_in_cart (users : List UserProfile)
    (catalog : List MenuItem) (nDays startW : ℕ) (o : Oracle) :
    List.Forall (fun e => e.candidate_item_id ∉ e.cart_items ∧ e.cart_items.Nodup)
      (generateSessions users catalog nDays startW o) := by
  rw [List.forall_iff_forall_mem]
  exact generateSessions_ok users catalog nDays startW o

/-- C4: For a fixed generator state (oracle), user pool, catalog, number
of days and start date, two runs of the session generator produce exactly
equal output event sequences — field-for-field list equality, not merely
distributional similarity. -/
theorem c4_determinism (users : List UserProfile) (catalog : List MenuItem)
    (nDays startW : ℕ) (o1 o2 : Oracle)
    (h1 : ∀ n, o1.unif n = o2.unif n) (h2 : ∀ n, o1.pick n = o2.pick n)
    (h3 : ∀ n, o1.norm n = o2.norm n) :
    generateSessions users catalog nDays startW o1 =
      generateSessions users catalog nDays startW o2 := by
  obtain ⟨u1, p1, g1⟩ := o1
  obtain ⟨u2, p2, g2⟩ := o2
  have e1 : u1 = u2 := funext h1
  have e2 : p1 = p2 := funext h2
  have e3 : g1 = g2 := funext h3
  subst e1
  subst e2
  subst e3
  rfl

/-- C6: For every candidate evaluated, the final acceptance probability
lies in [0, 0.95] (hence in [0, 1]) with no final re-clamp: the per-role
starting probability is clamped to at most 0.95 and nonnegative, and
every conditional modifier is a factor in (0, 1]. -/
theorem c6_probability_bounds (t : MealTemplate) (role : String)
    (user : UserProfile) (mealTime : String) (b : Bool) (item : MenuItem)
    (wk : Bool) (hcp : 0 ≤ completionProbOf t role) :
    0 ≤ candAccept (roleAcceptProb t role user wk) b item user mealTime ∧
    candAccept (roleAcceptProb t role user wk) b item user mealTime ≤ 19/20 := by
  have h0 := roleAcceptProb_nonneg t role user wk hcp
  exact ⟨candAccept_nonneg _ b item user mealTime h0,
    le_trans (candAccept_le _ b item user mealTime h0) (roleAcceptProb_le t role user wk)⟩

theorem anchorScore_nonneg (user : UserProfile) (item : MenuItem)
    (hpop : 0 ≤ item.popularity_score) : 0 ≤ anchorScore user item := by
  unfold anchorScore
  dsimp only
  refine mul_nonneg (mul_nonneg ?_ ?_) hpop
  · split_ifs <;> norm_num
  · exact le_trans (by norm_num) (le_max_left _ _)

/-- C5: For every anchor candidate of the chosen template present in the
catalog, its composite score is veg_match × price_match × popularity,
with veg_match 1.0 on the matching side of the 0.5 veg threshold and 0.3
otherwise, and price_match = max(0.1, 1 − price_sensitivity·(price/400));
provided some score is nonzero (and all popularity scores are
nonnegative), the normalized score vector sums to 1, exactly one anchor
is drawn from it, and it becomes the first and only cart item before the
role loop begins. -/
theorem c5_anchor_scoring (user : UserProfile) (catalog : List MenuItem)
    (t : MealTemplate) (o : Oracle) (s : RS)
    (hva : validAnchorsOf catalog t ≠ [])
    (hpop : ∀ aid ∈ validAnchorsOf catalog t,
      0 ≤ (fetchItem catalog aid).popularity_score)
    (hnz : ∃ aid ∈ validAnchorsOf catalog t,
      anchorScore user (fetchItem catalog aid) ≠ 0)
    (hu0 : 0 ≤ o.unif s.u) (hu1 : o.unif s.u < 1) :
    (∀ item : MenuItem, anchorScore user item =
      (if (item.is_veg ∧ user.veg_preference > 1/2) ∨
          (¬item.is_veg ∧ user.veg_preference ≤ 1/2) then 1 else 3/10) *
        max (1/10) (1 - user.price_sensitivity * (item.price / 400)) *
        item.popularity_score) ∧
    ((anchorScores user catalog (validAnchorsOf catalog t)).map
      (fun x => x / (anchorScores user catalog (validAnchorsOf catalog t)).sum)).sum
      = 1 ∧
    ∃ aid s2, anchorStage user catalog t o s = some (aid, [aid], s2) ∧
      aid ∈ validAnchorsOf catalog t := by
  have hnn : ∀ x ∈ anchorScores user catalog (validAnchorsOf catalog t), 0 ≤ x := by
    intro x hx
    obtain ⟨aid, haid, rfl⟩ := List.mem_map.mp hx
    exact anchorScore_nonneg user _ (hpop aid haid)
  have hpos : 0 < (anchorScores user catalog (validAnchorsOf catalog t)).sum := by
    obtain ⟨aid, haid, hne0⟩ := hnz
    have hx : anchorScore user (fetchItem catalog aid) ∈
        anchorScores user catalog (validAnchorsOf catalog t) :=
      List.mem_map_of_mem _ haid
    have hle := List.single_le_sum hnn _ hx
    have hgt : 0 < anchorScore user (fetchItem catalog aid) :=
      lt_of_le_of_ne (hnn _ hx) (Ne.symm hne0)
    linarith
  refine ⟨fun item => rfl, ?_, ?_⟩
  · rw [sum_map_div]
    exact div_self (ne_of_gt hpos)
  · have hlen : (anchorScores user catalog (validAnchorsOf catalog t)).length =
        (validAnchorsOf catalog t).length := by
      simp [anchorScores]
    have hlt : cumIndex (o.unif s.u *
        (anchorScores user catalog (validAnchorsOf catalog t)).sum)
        (anchorScores user catalog (validAnchorsOf catalog t)) <
        (validAnchorsOf catalog t).length := by
      rw [← hlen]
      refine cumIndex_lt _ _ (mul_nonneg hu0 hpos.le) ?_ hnn
      calc o.unif s.u * (anchorScores user catalog (validAnchorsOf catalog t)).sum
          < 1 * (anchorScores user catalog (validAnchorsOf catalog t)).sum :=
            (mul_lt_mul_of_pos_right hu1 hpos)
        _ = _ := one_mul _
    refine ⟨(validAnchorsOf catalog t).getD
        (cumIndex (o.unif s.u *
          (anchorScores user catalog (validAnchorsOf catalog t)).sum)
          (anchorScores user catalog (validAnchorsOf catalog t))) "",
      s.incU, ?_, getD_mem _ _ _ hlt⟩
    unfold anchorStage
    dsimp only
    rw [if_neg hva]

/-- The outcome claimed for the last-event override: the event list keeps
its length, all earlier events are untouched, the final event equals the
previous final event with only `is_abandoned` forced to 1 (every other
field unchanged), the override is a no-op for draws at or above 0.05, and
it does nothing when no event has ever been emitted. -/
def OverrideOutcome (d : ℚ) (es : List Event) (e : Event) : Prop :=
  (maybeOverride d es).length = es.length ∧
  (∀ i, i + 1 < es.length → (maybeOverride d es).get? i = es.get? i) ∧
  (maybeOverride d es).get? (es.length - 1) = some (setAbandoned e) ∧
  (setAbandoned e).is_abandoned = 1 ∧
  (setAbandoned e).session_id = e.session_id ∧
  (setAbandoned e).user_id = e.user_id ∧
  (setAbandoned e).city = e.city ∧
  (setAbandoned e).user_segment = e.user_segment ∧
  (setAbandoned e).user_veg_preference = e.user_veg_preference ∧
  (setAbandoned e).user_price_sensitivity = e.user_price_sensitivity ∧
  (setAbandoned e).timestamp = e.timestamp ∧
  (setAbandoned e).meal_time = e.meal_time ∧
  (setAbandoned e).day_of_week = e.day_of_week ∧
  (setAbandoned e).hour_of_day = e.hour_of_day ∧
  (setAbandoned e).is_weekend = e.is_weekend ∧
  (setAbandoned e).cart_items = e.cart_items ∧
  (setAbandoned e).cart_item_count = e.cart_item_count ∧
  (setAbandoned e).cart_total_price = e.cart_total_price ∧
  (setAbandoned e).cart_veg_ratio = e.cart_veg_ratio ∧
  (setAbandoned e).last_item_added = e.last_item_added ∧
  (setAbandoned e).last_item_category = e.last_item_category ∧
  (setAbandoned e).last_item_cuisine = e.last_item_cuisine ∧
  (setAbandoned e).cart_categories = e.cart_categories ∧
  (setAbandoned e).cart_cuisines = e.cart_cuisines ∧
  (setAbandoned e).candidate_item_id = e.candidate_item_id ∧
  (setAbandoned e).candidate_category = e.candidate_category ∧
  (setAbandoned e).candidate_cuisine = e.candidate_cuisine ∧
  (setAbandoned e).candidate_price = e.candidate_price ∧
  (setAbandoned e).candidate_is_veg = e.candidate_is_veg ∧
  (setAbandoned e).candidate_meal_role = e.candidate_meal_role ∧
  (setAbandoned e).candidate_popularity = e.candidate_popularity ∧
  (setAbandoned e).candidate_accepted = e.candidate_accepted ∧
  (setAbandoned e).meal_template = e.meal_template ∧
  (∀ dq : ℚ, ¬dq < 1/20 → maybeOverride dq es = es) ∧
  maybeOverride d [] = []

/-- C7: After a non-skipped session, when the override draw is below 0.05
and at least one event has been emitted across the whole run, the most
recently emitted event overall has its `is_abandoned` field set to 1; no
other event and no other field of any event is changed, and nothing
happens otherwise. -/
theorem c7_last_event_override (d : ℚ) (es : List Event) (e : Event)
    (hd : d < 1/20) (hlast : es.getLast? = some e) : OverrideOutcome d es e := by
  have hne : es ≠ [] := by
    intro h
    rw [h] at hlast
    simp at hlast
  have hlen : 0 < es.length := List.length_pos.mpr hne
  have hdl : es.dropLast.length = es.length - 1 := List.length_dropLast es
  have hmo : maybeOverride d es = es.dropLast ++ [setAbandoned e] := by
    unfold maybeOverride
    rw [if_pos hd, hlast]
  refine ⟨?_, ?_, ?_, rfl, rfl, rfl, rfl, rfl, rfl, rfl, rfl, rfl, rfl, rfl, rfl,
    rfl, rfl, rfl, rfl, rfl, rfl, rfl, rfl, rfl, rfl, rfl, rfl, rfl, rfl, rfl,
    rfl, rfl, rfl, ?_, ?_⟩
  · rw [hmo]
    simp only [List.length_append, hdl, List.length_singleton]
    omega
  · intro i hi
    rw [hmo, List.get?_eq_getElem?, List.get?_eq_getElem?,
      List.getElem?_append_left (by omega : i < es.dropLast.length),
      List.dropLast_eq_take, List.getElem?_take_of_lt (by omega)]
  · rw [hmo, List.get?_eq_getElem?,
      List.getElem?_append_right (by omega : es.dropLast.length ≤ es.length - 1)]
    rw [hdl]
    simp
  · intro dq hq
    unfold maybeOverride
    rw [if_neg hq]
  · unfold maybeOverride
    split_ifs
    all_goals rfl

/-- C8: A session whose chosen template has no anchor item ids present in
the catalog is silently skipped: the event list is returned unchanged (no
events emitted, the in-progress cart is discarded), no further draws are
consumed, and generation continues with the next session. -/
theorem c8_skipped_session (catalog : List MenuItem) (user : UserProfile)
    (startW dayOff : ℕ) (sid : String) (o : Oracle) (s : RS) (events : List Event)
    (h : validAnchorsOf catalog
      (chooseTemplate user (getMealTime (sampleTimestamp o s dayOff startW).1.hour)
        catalog o (sampleTimestamp o s dayOff startW).2).1.2 = []) :
    (processOrder catalog user startW dayOff sid o s events).1 = events ∧
    (processOrder catalog user startW dayOff sid o s events).2 =
      (chooseTemplate user (getMealTime (sampleTimestamp o s dayOff startW).1.hour)
        catalog o (sampleTimestamp o s dayOff startW).2).2 := by
  have hnone : anchorStage user catalog
      (chooseTemplate user (getMealTime (sampleTimestamp o s dayOff startW).1.hour)
        catalog o (sampleTimestamp o s dayOff startW).2).1.2 o
      (chooseTemplate user (getMealTime (sampleTimestamp o s dayOff startW).1.hour)
        catalog o (sampleTimestamp o s dayOff startW).2).2 = none := by
    unfold anchorStage
    dsimp only
    rw [if_pos h]
  unfold processOrder
  dsimp only
  rw [hnone]
  exact ⟨rfl, rfl⟩

/-- C9: Within every session, the emitted events respect the fixed role
order: the session body is exactly the complement-role events followed by
the addon-role events followed by the finisher-role events (each role
loop run once, in that order, with the cart and generator state threaded
through), and a role whose template item list is empty is skipped
entirely, emitting nothing and consuming no draws. -/
theorem c9_role_ordering (catalog : List MenuItem) (ctx : SessCtx)
    (tmpl : MealTemplate) (o : Oracle) (cart0 : List String) (s4 : RS)
    (events : List Event) :
    ∃ ec cart1 s5 ea cart2 s6 ef cart3 s7,
      processRole catalog ctx tmpl "complement" o cart0 s4 = (ec, cart1, s5) ∧
      processRole catalog ctx tmpl "addon" o cart1 s5 = (ea, cart2, s6) ∧
      processRole catalog ctx tmpl "finisher" o cart2 s6 = (ef, cart3, s7) ∧
      (sessionCore catalog ctx tmpl o cart0 s4 events).1 =
        maybeOverride (o.unif s7.u) (events ++ ec ++ ea ++ ef) ∧
      (∀ role cart s9, roleItemsOf tmpl role = [] →
        processRole catalog ctx tmpl role o cart s9 = ([], cart, s9)) := by
  refine ⟨_, _, _, _, _, _, _, _, _, rfl, rfl, rfl, rfl, ?_⟩
  intro role cart s9 hempty
  unfold processRole
  dsimp only
  rw [if_pos hempty]

/-- C10: For every hour, `_get_meal_time` returns one of exactly the five
bucket names breakfast / lunch / snacks / dinner / late_night, each a key
of MEALTIME_TEMPLATE_WEIGHTS, so the documented lunch fallback of the
weight-table lookup is unreachable for generated timestamps. -/
theorem c10_meal_time_buckets (h : ℕ) :
    getMealTime h ∈ ["breakfast", "lunch", "snacks", "dinner", "late_night"] ∧
    (lookupStr (getMealTime h) MEALTIME_TEMPLATE_WEIGHTS).isSome = true := by
  unfold getMealTime
  split_ifs <;> exact ⟨by decide, by decide⟩

/-! ## Concrete fixtures and witnesses -/

def oracleW : Oracle := ⟨fun _ => 0, fun _ => 0, fun _ => 12⟩

def itemW : MenuItem :=
  ⟨"ITEM_001", "Chicken Biryani", "Main", "Mughlai", false, 299, "anchor",
   ["lunch", "dinner"], "biryani", 1⟩

def userW : UserProfile := ⟨"U00001", "Mumbai", "regular", 0, 0, 0, ["Mughlai"], 1⟩

def ctxW : SessCtx :=
  ⟨"S0000001", userW, ⟨0, 2, 12, 0⟩, "lunch", "biryani_meal", false⟩

def eventW : Event :=
  ⟨"S0000001", "U00001", "Mumbai", "regular", 0, 0, ⟨0, 2, 12, 0⟩, "lunch", 2, 12, 0,
   ["ITEM_001"], 1, 299, 1, "ITEM_001", "Main", "Mughlai", ["Main"], ["Mughlai"],
   "ITEM_033", "Side", "North Indian", 49, 1, "complement", 1, 0, "biryani_meal", 0⟩

theorem c1_witness :
    ((∀ c ∈ ["ITEM_001"], (itemLookup [itemW] c).isSome = true) ∧
      0 < (["ITEM_001"] : List String).length ∧
      itemLookup [itemW] ((["ITEM_001"] : List String).getD 0 "") = some itemW) ∧
    (∃ ev, (evalCandidates [itemW] ctxW (1/2) [] oracleW
        ["ITEM_001"] [] ⟨0, 0, 0⟩).1.get? 0 = some ev ∧
      ev.candidate_item_id = (["ITEM_001"] : List String).getD 0 "" ∧
      ev.candidate_accepted =
        (if oracleW.unif ((⟨0, 0, 0⟩ : RS).u + 0) <
            (1/2 : ℚ) *
              (if (["ITEM_001"] : List String).getD 0 "" ∈ ([] : List String)
               then 8/100 else 1)
               * (if itemW.is_veg ∧ ctxW.user.veg_preference < 3/10 then 6/10 else 1)
               * (if ¬itemW.is_veg ∧ ctxW.user.veg_preference > 7/10 then 5/100 else 1)
               * (if itemW.price > 200 ∧ ctxW.user.price_sensitivity > 7/10
                  then 4/10 else 1)
               * (if ctxW.mealTime ∉ itemW.meal_times then 15/100 else 1)
         then 1 else 0)) :=
  ⟨⟨by decide, by decide, rfl⟩,
    c1_candidate_acceptance_probability [itemW] ctxW (1/2) [] oracleW
      ["ITEM_001"] [] ⟨0, 0, 0⟩ 0 itemW (by decide) (by decide) rfl⟩

theorem c2_witness :
    roleItemsOf (templateOf "biryani_meal") "complement" ≠ [] ∧
    ((∀ i ev, (processRole [itemW] ctxW (templateOf "biryani_meal") "complement"
        oracleW ["ITEM_001"] ⟨0, 0, 0⟩).1.get? i = some ev →
      ∃ (b : Bool) (item : MenuItem),
        ev.candidate_accepted =
          (if oracleW.unif ((⟨0, 0, 0⟩ : RS).u + i) <
              candAccept (min (19/20)
                (completionProbOf (templateOf "biryani_meal") "complement" *
                  segmentMultiplier ctxW.user.segment *
                  (if 5 ≤ ctxW.ts.weekday then 23/20 else 1))) b item ctxW.user
                ctxW.mealTime
           then 1 else 0)) ∧
      segmentMultiplier "new" = 7/10 ∧ segmentMultiplier "regular" = 1 ∧
      segmentMultiplier "power" = 13/10) :=
  ⟨by decide,
    c2_role_base_probability [itemW] ctxW (templateOf "biryani_meal") "complement"
      oracleW ["ITEM_001"] ⟨0, 0, 0⟩ (by decide)⟩

theorem c4_witness :
    (∀ n, oracleW.unif n = oracleW.unif n) ∧
    generateSessions [userW] [itemW] 1 2 oracleW =
      generateSessions [userW] [itemW] 1 2 oracleW :=
  ⟨fun _ => rfl,
    c4_determinism [userW] [itemW] 1 2 oracleW oracleW
      (fun _ => rfl) (fun _ => rfl) (fun _ => rfl)⟩

theorem c5_witness :
    (validAnchorsOf [itemW] (templateOf "biryani_meal") ≠ [] ∧
      (∀ aid ∈ validAnchorsOf [itemW] (templateOf "biryani_meal"),
        0 ≤ (fetchItem [itemW] aid).popularity_score) ∧
      (∃ aid ∈ validAnchorsOf [itemW] (templateOf "biryani_meal"),
        anchorScore userW (fetchItem [itemW] aid) ≠ 0) ∧
      0 ≤ oracleW.unif (⟨0, 0, 0⟩ : RS).u ∧ oracleW.unif (⟨0, 0, 0⟩ : RS).u < 1) ∧
    ((∀ item : MenuItem, anchorScore userW item =
      (if (item.is_veg ∧ userW.veg_preference > 1/2) ∨
          (¬item.is_veg ∧ userW.veg_preference ≤ 1/2) then 1 else 3/10) *
        max (1/10) (1 - userW.price_sensitivity * (item.price / 400)) *
        item.popularity_score) ∧
    ((anchorScores userW [itemW] (validAnchorsOf [itemW] (templateOf "biryani_meal"))).map
      (fun x => x / (anchorScores userW [itemW]
        (validAnchorsOf [itemW] (templateOf "biryani_meal"))).sum)).sum = 1 ∧
    ∃ aid s2, anchorStage userW [itemW] (templateOf "biryani_meal") oracleW ⟨0, 0, 0⟩ =
        some (aid, [aid], s2) ∧
      aid ∈ validAnchorsOf [itemW] (templateOf "biryani_meal")) :=
  ⟨⟨by decide, by decide,
      ⟨"ITEM_001", by decide, by
        show anchorScore userW itemW ≠ 0
        norm_num [anchorScore, itemW, userW]⟩,
      by norm_num [oracleW], by norm_num [oracleW]⟩,
    c5_anchor_scoring userW [itemW] (templateOf "biryani_meal") oracleW ⟨0, 0, 0⟩
      (by decide) (by decide)
      ⟨"ITEM_001", by decide, by
        show anchorScore userW itemW ≠ 0
        norm_num [anchorScore, itemW, userW]⟩
      (by norm_num [oracleW]) (by norm_num [oracleW])⟩

theorem c6_witness :
    0 ≤ completionProbOf (templateOf "biryani_meal") "complement" ∧
    (0 ≤ candAccept
        (roleAcceptProb (templateOf "biryani_meal") "complement" userW false)
        false itemW userW "lunch" ∧
      candAccept (roleAcceptProb (templateOf "biryani_meal") "complement" userW false)
        false itemW userW "lunch" ≤ 19/20) :=
  ⟨by show (0:ℚ) ≤ 65/100; norm_num,
    c6_probability_bounds (templateOf "biryani_meal") "complement" userW "lunch"
      false itemW false (by show (0:ℚ) ≤ 65/100; norm_num)⟩

theorem c7_witness :
    ((0:ℚ) < 1/20 ∧ ([eventW] : List Event).getLast? = some eventW) ∧
    OverrideOutcome 0 [eventW] eventW :=
  ⟨⟨by norm_num, rfl⟩, c7_last_event_override 0 [eventW] eventW (by norm_num) rfl⟩

theorem validAnchorsOf_nil (t : MealTemplate) : validAnchorsOf [] t = [] := by
  simp [validAnchorsOf, itemLookup]

theorem c8_witness :
    validAnchorsOf []
      (chooseTemplate userW (getMealTime (sampleTimestamp oracleW ⟨0, 0, 0⟩ 0 0).1.hour)
        [] oracleW (sampleTimestamp oracleW ⟨0, 0, 0⟩ 0 0).2).1.2 = [] ∧
    ((processOrder [] userW 0 0 "S0000001" oracleW ⟨0, 0, 0⟩ []).1 = [] ∧
      (processOrder [] userW 0 0 "S0000001" oracleW ⟨0, 0, 0⟩ []).2 =
        (chooseTemplate userW
          (getMealTime (sampleTimestamp oracleW ⟨0, 0, 0⟩ 0 0).1.hour)
          [] oracleW (sampleTimestamp oracleW ⟨0, 0, 0⟩ 0 0).2).2) :=
  ⟨validAnchorsOf_nil _,
    c8_skipped_session [] userW 0 0 "S0000001" oracleW ⟨0, 0, 0⟩ []
      (validAnchorsOf_nil _)⟩

end Csao
